import Mathlib

/-!
# Verification of the Lango dictionary backend (src/backend/server.py)

A shallow embedding of the FastAPI + MongoDB backend in `src/backend/server.py`.
Pure request handlers become Lean functions over an explicit database state
(`DBState`); MongoDB collections become Lean lists; `find_one` becomes
`List.find?`; `update_one` with `$inc`/`$set` becomes an update of the first
matching record; `.to_list n` becomes `List.take n`.  Timestamps and the JWT
clock are modelled as natural numbers (minutes since epoch); UUID generation is
modelled by passing the fresh identifiers as explicit arguments.  The bcrypt
hash (external `passlib` library) is modelled as an injective tagging function,
and the signed JWT (external `pyjwt` library) as a record carrying its claims,
expiry and signing key, with `decode` checking key equality and expiry
(`exp <= now` fails, as PyJWT does).  Mongo's `$regex` operator is modelled by
an executable matcher for the fragment of PCRE that the handlers can produce
(literal characters, `.`, `*`, `|`, and the `^` anchor); patterns outside the
fragment make the query fail, mirroring a Mongo error on an invalid regex.
-/

namespace Lango

/-- `class UserRole(str, Enum)` from server.py. -/
inductive UserRole where
  | user
  | contributor
  | moderator
  | admin
deriving DecidableEq, Repr

/-- The `User` pydantic model: the document stored in `db.users`. -/
structure UserR where
  id : String
  email : String
  username : String
  hashed_password : String
  role : UserRole
  contributor_rank : Nat
  contribution_count : Nat
  created_at : Nat
  updated_at : Nat
deriving DecidableEq, Repr

/-- A meaning entry: one `Dict[str, str]` of a word's `meanings` list. -/
abbrev Meaning := List (String × String)

/-- `dict.get(key)` on a meaning entry. -/
def mget (m : Meaning) (k : String) : Option String :=
  (m.find? (fun kv => kv.1 == k)).map (·.2)

/-- A BSON value as stored by the handlers: strings, meanings lists,
numeric timestamps, and opaque other JSON payloads (`pother`), which the
handlers never inspect. -/
inductive PValue where
  | pstr : String → PValue
  | pmeanings : List Meaning → PValue
  | pnat : Nat → PValue
  | pother : String → PValue
deriving DecidableEq, Repr

/-- The document stored in `db.words`.  `word` and `meanings` are `PValue`
because `update_word` can `$set` them to an arbitrary JSON value from the
request payload; all other fields are only ever written with their schema
type. -/
structure WordDoc where
  id : String
  word : PValue
  language_id : String
  meanings : PValue
  created_by : String
  last_modified_by : String
  created_at : Nat
  updated_at : Nat
deriving DecidableEq, Repr

/-- The `Word` pydantic response model (a well-typed view of a `WordDoc`). -/
structure WordR where
  id : String
  word : String
  language_id : String
  meanings : List Meaning
  created_by : String
  last_modified_by : String
  created_at : Nat
  updated_at : Nat
deriving DecidableEq, Repr

/-- `Word(**doc)`: pydantic validation of a raw document against the `Word`
model; fails when `word` is not a string or `meanings` is not a meanings
list. -/
def parseWord (d : WordDoc) : Option WordR :=
  match d.word, d.meanings with
  | .pstr w, .pmeanings ms =>
      some ⟨d.id, w, d.language_id, ms, d.created_by, d.last_modified_by,
            d.created_at, d.updated_at⟩
  | _, _ => none

/-- Re-serialise a well-typed word as its stored document
(`new_word.dict()`). -/
def WordR.toDoc (w : WordR) : WordDoc :=
  ⟨w.id, .pstr w.word, w.language_id, .pmeanings w.meanings, w.created_by,
   w.last_modified_by, w.created_at, w.updated_at⟩

/-- The `Language` pydantic model: the document stored in `db.languages`. -/
structure LanguageR where
  id : String
  name : String
  code : String
  native_name : Option String
  created_at : Nat
  updated_at : Nat
deriving DecidableEq, Repr

/-- The `Contribution` pydantic model: the document stored in
`db.contributions`.  `change_details` is the free-form `Dict[str, Any]`. -/
structure ContributionR where
  id : String
  user_id : String
  word_id : String
  contribution_type : String
  change_details : List (String × PValue)
  created_at : Nat
deriving DecidableEq, Repr

/-- The whole MongoDB database as seen by the handlers. -/
structure DBState where
  users : List UserR
  languages : List LanguageR
  words : List WordDoc
  contributions : List ContributionR
deriving DecidableEq, Repr

/-- An HTTP error response (`HTTPException`). -/
structure HErr where
  code : Nat
  detail : String
deriving DecidableEq, Repr

/-- `db.users.find_one({"id": uid})`. -/
def findUserById (st : DBState) (uid : String) : Option UserR :=
  st.users.find? (fun u => u.id == uid)

/-- `db.users.update_one({"id": uid}, ...)`: apply `f` to the first user
document whose `id` matches, leaving everything else unchanged. -/
def updateFirstUser (users : List UserR) (uid : String) (f : UserR → UserR) :
    List UserR :=
  match users with
  | [] => []
  | u :: rest =>
      if u.id == uid then f u :: rest else u :: updateFirstUser rest uid f

/-- `db.words.find_one({"id": wid})`. -/
def findWordById (st : DBState) (wid : String) : Option WordDoc :=
  st.words.find? (fun w => w.id == wid)

/-- `db.words.update_one({"id": wid}, {"$set": ...})`. -/
def updateFirstWord (words : List WordDoc) (wid : String)
    (f : WordDoc → WordDoc) : List WordDoc :=
  match words with
  | [] => []
  | w :: rest =>
      if w.id == wid then f w :: rest else w :: updateFirstWord rest wid f

/-- The two `db.users.update_one` calls at the end of `create_word` and
`update_word`: `$inc` `contribution_count` by 1, then `$inc`
`contributor_rank` by 1 when the count that was read at the start of the
request (`current_user.contribution_count`, the pre-increment value) is
divisible by 10. -/
def advanceCounters (users : List UserR) (cu : UserR) : List UserR :=
  let users := updateFirstUser users cu.id
    (fun u => { u with contribution_count := u.contribution_count + 1 })
  if cu.contribution_count % 10 = 0 then
    updateFirstUser users cu.id
      (fun u => { u with contributor_rank := u.contributor_rank + 1 })
  else
    users

/-- The `WordCreate` request model. -/
structure WordCreate where
  word : String
  language_id : String
  meanings : List Meaning
deriving DecidableEq, Repr

/-- `POST /api/words` (`create_word`).  `current_user` is the user record the
authentication dependency fetched at the start of the request; `wid` and `cid`
are the freshly generated UUIDs of the word and of the contribution; `now` is
`datetime.utcnow()`.  Returns the new state and the created word. -/
def create_word (st : DBState) (current_user : UserR) (word_data : WordCreate)
    (wid cid : String) (now : Nat) : DBState × WordR :=
  let new_word : WordR :=
    ⟨wid, word_data.word, word_data.language_id, word_data.meanings,
     current_user.id, current_user.id, now, now⟩
  let contribution : ContributionR :=
    ⟨cid, current_user.id, new_word.id, "add",
     [("word", .pstr word_data.word)], now⟩
  let st := { st with words := st.words ++ [new_word.toDoc] }
  let st := { st with contributions := st.contributions ++ [contribution] }
  let st := { st with users := advanceCounters st.users current_user }
  (st, new_word)

/-- One step of building `update_word`'s `update_data`: the loop body
`for field, value in word_data.items(): if field in ["word", "meanings"]`,
merged with the final `$set` (a later duplicate key overwrites, as in a
Python dict). -/
def applyField (acc : WordDoc) (kv : String × PValue) : WordDoc :=
  if kv.1 = "word" then { acc with word := kv.2 }
  else if kv.1 = "meanings" then { acc with meanings := kv.2 }
  else acc

/-- The body of `update_word`'s `$set`: start from
`{"last_modified_by": ..., "updated_at": ...}`, then add the `word` and
`meanings` entries of the payload, and apply the resulting `update_data` to
a stored document. -/
def applyUpdateData (payload : List (String × PValue)) (cuid : String)
    (now : Nat) (d : WordDoc) : WordDoc :=
  payload.foldl applyField { d with last_modified_by := cuid, updated_at := now }

/-- `PUT /api/words/{word_id}` (`update_word`).  The payload is the raw JSON
body (`Dict[str, Any]`); `cid` is the fresh contribution UUID.  Returns the
new state and the re-fetched updated word, or 404 when the word does not
exist. -/
def update_word (st : DBState) (current_user : UserR) (word_id : String)
    (word_data : List (String × PValue)) (cid : String) (now : Nat) :
    DBState × Except HErr WordDoc :=
  match findWordById st word_id with
  | none => (st, .error ⟨404, "Word not found"⟩)
  | some _ =>
      let st := { st with
        words := updateFirstWord st.words word_id
          (applyUpdateData word_data current_user.id now) }
      let contribution : ContributionR :=
        ⟨cid, current_user.id, word_id, "edit", word_data, now⟩
      let st := { st with contributions := st.contributions ++ [contribution] }
      let st := { st with users := advanceCounters st.users current_user }
      match findWordById st word_id with
      | some updated => (st, .ok updated)
      | none => (st, .error ⟨404, "Word not found"⟩)

/-! ## Authentication: password hashing, JWT tokens, current user -/

/-- `get_password_hash` (passlib bcrypt, modelled as an injective tag; the
real hash is salted and non-deterministic, but the handlers only ever compare
a password against a stored hash through `verify_password`). -/
def get_password_hash (password : String) : String :=
  "bcrypt$" ++ password

/-- `verify_password` (passlib bcrypt verification, modelled against the
tagged hash). -/
def verify_password (plain hashed : String) : Bool :=
  get_password_hash plain == hashed

/-- `db.users.find_one({"username": ...})` wrapped by `get_user`. -/
def get_user (st : DBState) (username : String) : Option UserR :=
  st.users.find? (fun u => u.username == username)

/-- `authenticate_user`: look the user up by username and check the
password; `none` models the falsy return. -/
def authenticate_user (st : DBState) (username password : String) :
    Option UserR :=
  match get_user st username with
  | none => none
  | some u => if verify_password password u.hashed_password then some u
              else none

/-- A signed JWT, modelled as its claim set (string claims such as `sub`),
its absolute `exp` timestamp in minutes, and the key it was signed with. -/
structure JwtToken where
  claims : List (String × String)
  exp : Nat
  key : String
deriving DecidableEq, Repr

/-- `ACCESS_TOKEN_EXPIRE_MINUTES = 30`. -/
def ACCESS_TOKEN_EXPIRE_MINUTES : Nat := 30

/-- `create_access_token(data, expires_delta)`: expiry is `now + delta` when
a delta is passed and `now + 15` minutes otherwise; the token is signed with
the process key. -/
def create_access_token (data : List (String × String))
    (expires_delta : Option Nat) (now : Nat) (key : String) : JwtToken :=
  let expire :=
    match expires_delta with
    | some d => now + d
    | none => now + 15
  ⟨data, expire, key⟩

/-- `jwt.decode(token, key, ...)` (PyJWT): fails on a bad signature, and
raises `ExpiredSignatureError` when `exp <= now`; otherwise returns the
payload. -/
def jwtDecode (token : JwtToken) (key : String) (now : Nat) :
    Option (List (String × String)) :=
  if token.key ≠ key then none
  else if token.exp ≤ now then none
  else some token.claims

/-- `payload.get("sub")`. -/
def claimLookup (claims : List (String × String)) (k : String) :
    Option String :=
  (claims.find? (fun kv => kv.1 == k)).map (·.2)

/-- The `credentials_exception` raised by `get_current_user`. -/
def credentialsException : HErr :=
  ⟨401, "Could not validate credentials"⟩

/-- `get_current_user`: decode the bearer token (401 on any decode failure),
require a `sub` claim (401 when missing), then look the username up in the
user store (401 when absent). -/
def get_current_user (st : DBState) (token : JwtToken) (key : String)
    (now : Nat) : Except HErr UserR :=
  match jwtDecode token key now with
  | none => .error credentialsException
  | some payload =>
      match claimLookup payload "sub" with
      | none => .error credentialsException
      | some username =>
          match get_user st username with
          | none => .error credentialsException
          | some user => .ok user

/-- `is_moderator` dependency: 403 unless the current user's role is
moderator or admin. -/
def is_moderator (current_user : UserR) : Except HErr UserR :=
  if current_user.role = .moderator ∨ current_user.role = .admin then
    .ok current_user
  else
    .error ⟨403, "Insufficient permissions"⟩

/-- The `UserCreate` request model. -/
structure UserCreate where
  email : String
  username : String
  password : String
deriving DecidableEq, Repr

/-- The `UserResponse` model (user without the password hash). -/
structure UserResponse where
  id : String
  email : String
  username : String
  role : UserRole
  contributor_rank : Nat
  contribution_count : Nat
  created_at : Nat
deriving DecidableEq, Repr

/-- `POST /api/register` (`register_user`): 400 when the username or the
email is already taken, otherwise insert one new user with role
`contributor` and zero counters; `uid` is the fresh UUID.  Returns the
(possibly unchanged) state together with the response. -/
def register_user (st : DBState) (user_data : UserCreate) (uid : String)
    (now : Nat) : DBState × Except HErr UserResponse :=
  match st.users.find? (fun u => u.username == user_data.username) with
  | some _ => (st, .error ⟨400, "Username already registered"⟩)
  | none =>
      match st.users.find? (fun u => u.email == user_data.email) with
      | some _ => (st, .error ⟨400, "Email already registered"⟩)
      | none =>
          let user_in_db : UserR :=
            ⟨uid, user_data.email, user_data.username,
             get_password_hash user_data.password, .contributor, 0, 0,
             now, now⟩
          ({ st with users := st.users ++ [user_in_db] },
           .ok ⟨uid, user_data.email, user_data.username, .contributor, 0, 0,
                now⟩)

/-- `POST /api/token` (`login_for_access_token`): authenticate, then issue a
token for the user's username with a 30-minute expiry; 401 on bad
credentials. -/
def login_for_access_token (st : DBState) (username password : String)
    (now : Nat) (key : String) : Except HErr JwtToken :=
  match authenticate_user st username password with
  | none => .error ⟨401, "Incorrect username or password"⟩
  | some user =>
      .ok (create_access_token [("sub", user.username)]
            (some ACCESS_TOKEN_EXPIRE_MINUTES) now key)

/-! ## Languages and contributions -/

/-- `GET /api/languages` (`get_languages`): `find().to_list(1000)`. -/
def get_languages (st : DBState) : List LanguageR :=
  st.languages.take 1000

/-- `POST /api/languages` (`create_language`): guarded by the `is_moderator`
dependency; inserts the language unconditionally once authorized. -/
def create_language (st : DBState) (language : LanguageR)
    (current_user : UserR) : DBState × Except HErr LanguageR :=
  match is_moderator current_user with
  | .error e => (st, .error e)
  | .ok _ => ({ st with languages := st.languages ++ [language] }, .ok language)

/-- `GET /api/user/{user_id}/contributions` (`get_user_contributions`):
403 unless the caller is the target user or a moderator/admin; otherwise
`find({"user_id": ...}).to_list(1000)`. -/
def get_user_contributions (st : DBState) (user_id : String)
    (current_user : UserR) : Except HErr (List ContributionR) :=
  if current_user.id ≠ user_id ∧
      current_user.role ≠ .moderator ∧ current_user.role ≠ .admin then
    .error ⟨403, "Not authorized to view these contributions"⟩
  else
    .ok ((st.contributions.filter (fun c => c.user_id == user_id)).take 1000)

/-! ## The `$regex` model

`get_words` interpolates the raw `search` string into `{"$regex": search,
"$options": "i"}` and `search_words` interpolates `"^" + word`.  We model the
fragment of PCRE these handlers exercise: literal characters, `.`, a `*`
quantifier on the preceding single-character atom, top-level alternation
`|`, and the `^` anchor at the head of an alternative.  Any other
metacharacter (or a misplaced `^`/`*`) makes the pattern fall outside the
modelled fragment and the query fail, mirroring a Mongo error on a regex we
do not model.  The `i` option is modelled by lowercasing pattern characters
at parse time and subject characters at match time. -/

/-- A single-character regex atom. -/
inductive RAtom where
  | rchar : Char → RAtom
  | rdot
deriving DecidableEq, Repr

/-- An atom together with its optional `*` quantifier. -/
structure RPiece where
  atom : RAtom
  starred : Bool
deriving DecidableEq, Repr

/-- One top-level alternative: optionally anchored at the start of the
subject by `^`, followed by a sequence of pieces. -/
structure RAlt where
  anchored : Bool
  pieces : List RPiece
deriving DecidableEq, Repr

/-- Does an atom match one subject character (case-insensitively; `.`
matches anything but a newline, as in PCRE)? -/
def atomMatches : RAtom → Char → Bool
  | .rchar c, d => c == d.toLower
  | .rdot, d => d != '\n'

/-- All suffixes of the subject reachable by consuming zero or more
characters that match `a`: the possible continuations after `a*`. -/
def starSuffixes (a : RAtom) : List Char → List (List Char)
  | [] => [[]]
  | c :: rest =>
      (c :: rest) :: (if atomMatches a c then starSuffixes a rest else [])

/-- Does a piece sequence match some prefix of the subject? -/
def matchSeq : List RPiece → List Char → Bool
  | [], _ => true
  | ⟨a, false⟩ :: ps, s =>
      match s with
      | [] => false
      | c :: rest => atomMatches a c && matchSeq ps rest
  | ⟨a, true⟩ :: ps, s => (starSuffixes a s).any (fun s2 => matchSeq ps s2)

/-- All suffixes of a list (including itself and `[]`). -/
def suffixes : List Char → List (List Char)
  | [] => [[]]
  | c :: rest => (c :: rest) :: suffixes rest

/-- Does one alternative match the subject?  An anchored alternative must
match at the start; an unanchored one may match anywhere. -/
def altMatches (alt : RAlt) (s : List Char) : Bool :=
  if alt.anchored then matchSeq alt.pieces s
  else (suffixes s).any (fun s2 => matchSeq alt.pieces s2)

/-- A compiled pattern: its top-level alternatives. -/
abbrev Regex := List RAlt

/-- PCRE find semantics: does any alternative match anywhere? -/
def regexFind (r : Regex) (s : String) : Bool :=
  r.any (fun alt => altMatches alt s.data)

/-- The PCRE metacharacters. -/
def isMetaChar (c : Char) : Bool :=
  c == '\\' || c == '^' || c == '$' || c == '.' || c == '|' || c == '?' ||
  c == '*' || c == '+' || c == '(' || c == ')' || c == '[' || c == ']' ||
  c == '{' || c == '}'

/-- Pattern parser for the modelled fragment.  `anch`/`cur` accumulate the
current alternative (pieces in reverse), `alts` the finished alternatives in
reverse. -/
def parseGo : List Char → Bool → List RPiece → List RAlt → Option (List RAlt)
  | [], anch, cur, alts => some ((⟨anch, cur.reverse⟩ :: alts).reverse)
  | c :: cs, anch, cur, alts =>
      if c = '|' then parseGo cs false [] (⟨anch, cur.reverse⟩ :: alts)
      else if c = '^' then
        if anch = false ∧ cur = [] then parseGo cs true [] alts else none
      else if c = '*' then
        match cur with
        | [] => none
        | p :: rest =>
            if p.starred then none
            else parseGo cs anch (⟨p.atom, true⟩ :: rest) alts
      else if c = '.' then parseGo cs anch (⟨.rdot, false⟩ :: cur) alts
      else if isMetaChar c then none
      else parseGo cs anch (⟨.rchar c.toLower, false⟩ :: cur) alts

/-- Compile a pattern string. -/
def parsePattern (p : String) : Option (List RAlt) :=
  parseGo p.data false [] []

/-- Evaluate `"field": ("$regex": pat, "$options": "i")` on a BSON value:
a Mongo regex condition matches only string values. -/
def docFieldRegexMatches (r : Regex) (v : PValue) : Bool :=
  match v with
  | .pstr s => regexFind r s
  | _ => false

/-! ## Word queries -/

/-- `GET /api/words` (`get_words`): optional `language_id` and `search`
query params combined as an AND filter (Python truthiness: `None` and `""`
disable a filter); the `search` regex is case-insensitive and unanchored.
An invalid regex fails the query (`none`), as does a stored document that
fails `Word` validation; `.to_list(1000)` truncates to 1000 documents. -/
def get_words (st : DBState) (language_id search : Option String) :
    Option (List WordR) :=
  let langOk : WordDoc → Bool := fun d =>
    match language_id with
    | some lid => if lid = "" then true else d.language_id == lid
    | none => true
  match search with
  | some s =>
      if s = "" then ((st.words.filter langOk).take 1000).mapM parseWord
      else
        match parsePattern s with
        | none => none
        | some r =>
            ((st.words.filter (fun d => langOk d &&
                docFieldRegexMatches r d.word)).take 1000).mapM parseWord
  | none => ((st.words.filter langOk).take 1000).mapM parseWord

/-- The fetch phase of `GET /api/search` (`search_words`): the query
`("word": ("$regex": "^" + word, "$options": "i"))` plus the optional
`language_id` equality filter, truncated to 100 documents and validated. -/
def searchFetch (st : DBState) (word : String)
    (from_language : Option String) : Option (List WordR) :=
  match parsePattern ("^" ++ word) with
  | none => none
  | some r =>
      let langOk : WordDoc → Bool := fun d =>
        match from_language with
        | some lid => if lid = "" then true else d.language_id == lid
        | none => true
      ((st.words.filter (fun d => langOk d &&
          docFieldRegexMatches r d.word)).take 100).mapM parseWord

/-- The meanings-filter phase of `search_words`: keep only the meanings
whose `language_id` entry is the requested target language, dropping words
left with no meanings. -/
def filterToLanguage (L : String) (ws : List WordR) : List WordR :=
  ws.filterMap (fun w =>
    let fm := w.meanings.filter (fun m => mget m "language_id" == some L)
    if fm.isEmpty then none else some { w with meanings := fm })

/-- `GET /api/search` (`search_words`): fetch, then apply the
`to_language` filter when `to_language` is truthy and the fetched result is
non-empty. -/
def search_words (st : DBState) (word : String)
    (from_language to_language : Option String) : Option (List WordR) :=
  match searchFetch st word from_language with
  | none => none
  | some result =>
      match to_language with
      | some L =>
          if L = "" then some result
          else if result.isEmpty then some result
          else some (filterToLanguage L result)
      | none => some result

/-! ## Specification-level string predicates

These two definitions are written from the specification's words ("a
case-insensitive substring match anywhere in the word text" and "an
anchored-at-start, case-insensitive prefix match"), to be compared with the
behaviour of the `$regex` queries above. -/

/-- The characters of a string, lowercased. -/
def lowerStr (s : String) : List Char := s.data.map Char.toLower

/-- Case-insensitive "contains anywhere": some suffix of the haystack
starts with the needle, comparing lowercased characters. -/
def substrCI (needle hay : String) : Bool :=
  (suffixes (lowerStr hay)).any (fun suf => (lowerStr needle).isPrefixOf suf)

/-- Case-insensitive "starts with". -/
def prefixCI (needle hay : String) : Bool :=
  (lowerStr needle).isPrefixOf (lowerStr hay)

/-- A query string free of PCRE metacharacters. -/
def regexSafe (s : String) : Bool := s.data.all (fun c => !isMetaChar c)

/-- The compiled form of a metacharacter-free query: one unanchored
alternative of literal characters. -/
def litSeq (cs : List Char) : List RPiece :=
  cs.map (fun c => ⟨.rchar c.toLower, false⟩)

/-! ## Action sequences (for the contribution-counter claims) -/

/-- One authenticated content-changing request: the data of a `create_word`
or `update_word` call (fresh UUIDs and timestamp included). -/
inductive ActionSpec where
  | createA (wd : WordCreate) (wid cid : String) (now : Nat)
  | updateA (word_id : String) (payload : List (String × PValue))
      (cid : String) (now : Nat)
deriving DecidableEq, Repr

/-- Run one action as user `uid`: the authentication dependency fetches the
user's current record (`findUserById`), then the handler runs; the `Bool`
records whether the request succeeded. -/
def runAction (st : DBState) (uid : String) (a : ActionSpec) :
    DBState × Bool :=
  match findUserById st uid with
  | none => (st, false)
  | some cu =>
      match a with
      | .createA wd wid cid now => ((create_word st cu wd wid cid now).1, true)
      | .updateA word_id payload cid now =>
          match update_word st cu word_id payload cid now with
          | (st2, .ok _) => (st2, true)
          | (st2, .error _) => (st2, false)

/-- Run a sequence of actions by the same user, each seeing the state the
previous one left (no concurrent interleaving). -/
def runActions (st : DBState) (uid : String) : List ActionSpec → DBState
  | [] => st
  | a :: rest => runActions (runAction st uid a).1 uid rest

/-- Did every action of the sequence succeed? -/
def actionsSucceed (st : DBState) (uid : String) : List ActionSpec → Bool
  | [] => true
  | a :: rest =>
      (runAction st uid a).2 && actionsSucceed (runAction st uid a).1 uid rest

/-- Number of rank bumps over `k` consecutive contributions whose first one
sees pre-increment count `c0`: one bump for each step whose pre-increment
count is divisible by 10. -/
def rankBumps (c0 : Nat) : Nat → Nat
  | 0 => 0
  | k + 1 => (if c0 % 10 = 0 then 1 else 0) + rankBumps (c0 + 1) k

/-- The value an update payload assigns to key `k` (the last occurrence
wins, as in a Python dict built by iteration), if any. -/
def payloadValue : List (String × PValue) → String → Option PValue
  | [], _ => none
  | kv :: rest, k =>
      match payloadValue rest k with
      | some v => some v
      | none => if kv.1 = k then some kv.2 else none

/-! ## Concrete fixtures (used by witnesses and counterexamples) -/

/-- A freshly registered contributor with zero counters. -/
def uAlice : UserR :=
  ⟨"u1", "alice@example.com", "alice", get_password_hash "pw1",
   .contributor, 0, 0, 0, 0⟩

/-- A moderator. -/
def uMod : UserR :=
  ⟨"u2", "mod@example.com", "mod", get_password_hash "pw2",
   .moderator, 0, 0, 0, 0⟩

/-- A plain `user`-role account. -/
def uPlain : UserR :=
  ⟨"u3", "plain@example.com", "plain", get_password_hash "pw3",
   .user, 0, 0, 0, 0⟩

/-- A state with just Alice. -/
def stTen : DBState := ⟨[uAlice], [], [], []⟩

/-- Ten successful `create_word` requests by Alice. -/
def actsTen : List ActionSpec :=
  List.replicate 10 (.createA ⟨"cat", "l1", []⟩ "w" "c" 0)

/-- A stored word document about to be updated. -/
def dBase : WordDoc :=
  ⟨"wid1", .pstr "old", "l1",
   .pmeanings [[("language_id", "es"), ("meaning", "gato")]], "u0", "u0", 0, 0⟩

/-- A state with Alice and one stored word. -/
def stUpd : DBState := ⟨[uAlice], [], [dBase], []⟩

/-- An update payload carrying one persisted key and one unrecognized key. -/
def payloadX : List (String × PValue) :=
  [("word", .pstr "new"), ("bogus", .pother "junk")]

/-- Dictionary words for the search claims (the specification's own
example set). -/
def wDog : WordR := ⟨"w1", "dog", "l1", [], "u1", "u1", 0, 0⟩

def wCat : WordR := ⟨"w2", "cat", "l1", [], "u1", "u1", 0, 0⟩

def wCats : WordR := ⟨"w3", "Cats", "l1", [], "u1", "u1", 0, 0⟩

def wConcat : WordR := ⟨"w4", "concatenate", "l1", [], "u1", "u1", 0, 0⟩

def wCab : WordR := ⟨"w5", "cab", "l1", [], "u1", "u1", 0, 0⟩

/-- A state whose only word is "dog". -/
def stDog : DBState := ⟨[], [], [wDog.toDoc], []⟩

/-- A state whose only word is "cab". -/
def stCab : DBState := ⟨[uAlice], [], [wCab.toDoc], []⟩

/-- The spec's example word set. -/
def stCatalog : DBState :=
  ⟨[], [], [wDog, wCat, wCats, wConcat].map WordR.toDoc, []⟩

/-- Words with meanings, for the `to_language` filter claim. -/
def wHouse : WordR :=
  ⟨"w6", "house", "l1",
   [[("language_id", "es"), ("meaning", "casa")],
    [("language_id", "fr"), ("meaning", "maison")]], "u1", "u1", 0, 0⟩

def wHour : WordR :=
  ⟨"w7", "hour", "l1",
   [[("language_id", "fr"), ("meaning", "heure")]], "u1", "u1", 0, 0⟩

/-- A state with the two meaning-bearing words. -/
def stMeanings : DBState := ⟨[], [], [wHouse, wHour].map WordR.toDoc, []⟩

/-- A language record (for the truncation claim). -/
def langEn : LanguageR := ⟨"l1", "English", "en", none, 0, 0⟩

/-! ## Lemmas about the counter updates -/

theorem find?_updateFirstUser (users : List UserR) (uid : String)
    (f : UserR → UserR) (hf : ∀ u, (f u).id = u.id) :
    (updateFirstUser users uid f).find? (fun u => u.id == uid) =
      (users.find? (fun u => u.id == uid)).map f := by
  induction users with
  | nil => rfl
  | cons u rest ih =>
      by_cases h : u.id = uid
      · simp [updateFirstUser, h, hf]
      · simp [updateFirstUser, h, ih]

theorem advanceCounters_find? (users : List UserR) (cu u0 : UserR)
    (h : users.find? (fun u => u.id == cu.id) = some u0) :
    (advanceCounters users cu).find? (fun u => u.id == cu.id) =
      some { u0 with
        contribution_count := u0.contribution_count + 1,
        contributor_rank := u0.contributor_rank +
          (if cu.contribution_count % 10 = 0 then 1 else 0) } := by
  cases u0 with
  | mk i e un hp r rank cnt ca ua =>
      unfold advanceCounters
      by_cases hdiv : cu.contribution_count % 10 = 0 <;>
        simp [hdiv, find?_updateFirstUser, h]

/-- C1: every successful `create_word` or `update_word` request increments
the acting user's stored `contribution_count` by exactly 1, and increments
`contributor_rank` by exactly 1 if and only if the `contribution_count`
read at the start of the request (the pre-increment value,
`cu.contribution_count`) is divisible by 10, leaving the rank unchanged
otherwise. -/
theorem C1_counter_advance (st : DBState) (cu : UserR)
    (hfetch : findUserById st cu.id = some cu)
    (wd : WordCreate) (wid cid : String) (now : Nat)
    (word_id : String) (payload : List (String × PValue)) (cid2 : String)
    (now2 : Nat) (w0 : WordDoc) (hword : findWordById st word_id = some w0) :
    findUserById (create_word st cu wd wid cid now).1 cu.id =
      some { cu with
        contribution_count := cu.contribution_count + 1,
        contributor_rank := cu.contributor_rank +
          (if cu.contribution_count % 10 = 0 then 1 else 0) }
    ∧ findUserById (update_word st cu word_id payload cid2 now2).1 cu.id =
      some { cu with
        contribution_count := cu.contribution_count + 1,
        contributor_rank := cu.contributor_rank +
          (if cu.contribution_count % 10 = 0 then 1 else 0) } := by
  constructor
  · exact advanceCounters_find? st.users cu cu hfetch
  · unfold update_word
    rw [hword]
    split
    · simp_all
    · dsimp only
      split <;> exact advanceCounters_find? st.users cu cu hfetch

/-- Witness for `C1_counter_advance` at a concrete state: Alice (count 0,
rank 0) creates a word and updates a stored word. -/
theorem C1_counter_advance_witness :
    findUserById (create_word stUpd uAlice ⟨"cat", "l1", []⟩ "w9" "c9" 5).1
        uAlice.id =
      some { uAlice with
        contribution_count := uAlice.contribution_count + 1,
        contributor_rank := uAlice.contributor_rank +
          (if uAlice.contribution_count % 10 = 0 then 1 else 0) }
    ∧ findUserById (update_word stUpd uAlice "wid1" payloadX "c10" 6).1
        uAlice.id =
      some { uAlice with
        contribution_count := uAlice.contribution_count + 1,
        contributor_rank := uAlice.contributor_rank +
          (if uAlice.contribution_count % 10 = 0 then 1 else 0) } :=
  C1_counter_advance stUpd uAlice (by decide) ⟨"cat", "l1", []⟩ "w9" "c9" 5
    "wid1" payloadX "c10" 6 dBase (by decide)

/-! ## Lemmas about running action sequences -/

theorem update_word_notfound (st : DBState) (cu : UserR) (word_id : String)
    (payload : List (String × PValue)) (cid : String) (now : Nat)
    (hw : findWordById st word_id = none) :
    update_word st cu word_id payload cid now =
      (st, .error ⟨404, "Word not found"⟩) := by
  unfold update_word
  rw [hw]

theorem update_word_users (st : DBState) (cu : UserR) (word_id : String)
    (payload : List (String × PValue)) (cid : String) (now : Nat)
    (w0 : WordDoc) (hw : findWordById st word_id = some w0) :
    (update_word st cu word_id payload cid now).1.users =
      advanceCounters st.users cu := by
  unfold update_word
  rw [hw]
  dsimp only
  split <;> rfl

theorem runAction_update_fst (st : DBState) (uid : String) (cu : UserR)
    (word_id : String) (payload : List (String × PValue)) (cid : String)
    (now : Nat) (h : findUserById st uid = some cu) :
    (runAction st uid (.updateA word_id payload cid now)).1 =
      (update_word st cu word_id payload cid now).1 := by
  unfold runAction
  rw [h]
  dsimp only
  rcases hu : update_word st cu word_id payload cid now with ⟨st2, res⟩
  cases res <;> simp

theorem runAction_success_counters (st : DBState) (uid : String)
    (a : ActionSpec) (cu : UserR) (h : findUserById st uid = some cu)
    (hs : (runAction st uid a).2 = true) :
    findUserById (runAction st uid a).1 uid =
      some { cu with
        contribution_count := cu.contribution_count + 1,
        contributor_rank := cu.contributor_rank +
          (if cu.contribution_count % 10 = 0 then 1 else 0) } := by
  have hid : cu.id = uid := by
    have := List.find?_some h
    simpa using this
  have hfind : st.users.find? (fun u => u.id == cu.id) = some cu := hid ▸ h
  cases a with
  | createA wd wid cid now =>
      unfold runAction
      rw [h]
      show (advanceCounters st.users cu).find? (fun u => u.id == uid) = _
      rw [← hid]
      exact advanceCounters_find? st.users cu cu hfind
  | updateA word_id payload cid now =>
      cases hw : findWordById st word_id with
      | none =>
          exfalso
          unfold runAction at hs
          rw [h] at hs
          dsimp only at hs
          rw [update_word_notfound st cu word_id payload cid now hw] at hs
          simp at hs
      | some w0 =>
          rw [runAction_update_fst st uid cu word_id payload cid now h]
          unfold findUserById
          rw [update_word_users st cu word_id payload cid now w0 hw]
          rw [← hid]
          exact advanceCounters_find? st.users cu cu hfind

theorem runActions_counters (acts : List ActionSpec) (st : DBState)
    (uid : String) (cu : UserR) (h : findUserById st uid = some cu)
    (hs : actionsSucceed st uid acts = true) :
    findUserById (runActions st uid acts) uid =
      some { cu with
        contribution_count := cu.contribution_count + acts.length,
        contributor_rank := cu.contributor_rank +
          rankBumps cu.contribution_count acts.length } := by
  induction acts generalizing st cu with
  | nil => simpa [runActions, rankBumps] using h
  | cons a rest ih =>
      unfold actionsSucceed at hs
      have h1 := (Bool.and_eq_true _ _).mp hs
      have hstep := runAction_success_counters st uid a cu h h1.1
      have hrest := ih (runAction st uid a).1 _ hstep h1.2
      unfold runActions
      rw [hrest]
      cases cu with
      | mk i e un hp r rank cnt ca ua =>
          simp only [rankBumps, Option.some.injEq, UserR.mk.injEq,
            List.length_cons, and_true, true_and]
          omega

theorem actionsSucceed_take (acts : List ActionSpec) (st : DBState)
    (uid : String) (hs : actionsSucceed st uid acts = true) (k : Nat) :
    actionsSucceed st uid (acts.take k) = true := by
  induction acts generalizing st k with
  | nil => simp [actionsSucceed]
  | cons a rest ih =>
      cases k with
      | zero => simp [actionsSucceed]
      | succ k =>
          unfold actionsSucceed at hs
          have h1 := (Bool.and_eq_true _ _).mp hs
          simp only [List.take_succ_cons]
          unfold actionsSucceed
          exact (Bool.and_eq_true _ _).mpr ⟨h1.1, ih _ h1.2 k⟩

/-- C2 (amended): a user starting at `contribution_count` 0 and
`contributor_rank` 0 who performs exactly 10 successful
`create_word`/`update_word` actions sequentially ends at count 10 and rank
1 (one increment over the 10 actions); but the single rank increment
occurred in the *first* call (the one whose pre-increment read was 0): at
every intermediate point from the 1st through the 10th action the rank is
already 1, so in particular the call that took the count from 9 to 10
(pre-increment read 9) left the rank unchanged. -/
theorem C2_rank_first_call (st : DBState) (uid : String) (cu : UserR)
    (acts : List ActionSpec) (h : findUserById st uid = some cu)
    (hc : cu.contribution_count = 0) (hr : cu.contributor_rank = 0)
    (hlen : acts.length = 10) (hs : actionsSucceed st uid acts = true)
    (k : Nat) (hk1 : 1 ≤ k) (hk : k ≤ 10) :
    findUserById (runActions st uid acts) uid =
      some { cu with contribution_count := 10, contributor_rank := 1 }
    ∧ findUserById (runActions st uid (acts.take k)) uid =
      some { cu with contribution_count := k, contributor_rank := 1 } := by
  have hfull := runActions_counters acts st uid cu h hs
  have htake := runActions_counters (acts.take k) st uid cu h
      (actionsSucceed_take acts st uid hs k)
  have hlt : (acts.take k).length = k := by
    rw [List.length_take, hlen]; omega
  rw [hlen] at hfull
  rw [hlt] at htake
  rw [hc, hr] at hfull htake
  have hb10 : rankBumps 0 10 = 1 := by decide
  have hbk : rankBumps 0 k = 1 := by interval_cases k <;> decide
  constructor
  · simpa [hb10] using hfull
  · simpa [hbk] using htake

/-- Counterexample to C2 as stated: with Alice starting at count 0 and rank
0 and ten successful `create_word` calls, the rank is already 1 after the
first call (pre-increment read 0), and the tenth call (pre-increment read
9) does not change the rank: the single increment did NOT occur in the call
that took the count from 9 to 10. -/
theorem C2_rank_first_call_counterexample :
    (findUserById (runActions stTen "u1" (actsTen.take 1)) "u1").map
        (fun u => u.contributor_rank) = some 1
    ∧ (findUserById (runActions stTen "u1" (actsTen.take 9)) "u1").map
        (fun u => u.contributor_rank) = some 1
    ∧ (findUserById (runActions stTen "u1" actsTen) "u1").map
        (fun u => u.contributor_rank) = some 1
    ∧ (findUserById (runActions stTen "u1" actsTen) "u1").map
        (fun u => u.contribution_count) = some 10 := by decide

/-- Witness for `C2_rank_first_call`: the concrete ten-call run, observed
after the full run and after the first call. -/
theorem C2_rank_first_call_witness :
    findUserById (runActions stTen "u1" actsTen) "u1" =
      some { uAlice with contribution_count := 10, contributor_rank := 1 }
    ∧ findUserById (runActions stTen "u1" (actsTen.take 1)) "u1" =
      some { uAlice with contribution_count := 1, contributor_rank := 1 } :=
  C2_rank_first_call stTen "u1" uAlice actsTen (by decide) (by decide)
    (by decide) (by decide) (by decide) 1 (by decide) (by decide)

/-- C4: a token issued at login for user U carries `sub = U`'s username and
expiry `now + 30` minutes (the internal helper `create_access_token` falls
back to 15 minutes only when no ttl is passed); resolving it before expiry
yields U's record (hence U's username), and resolving it strictly after
expiry, or resolving any token with a bad signature or no `sub` claim,
fails with the 401 invalid-credentials error. -/
theorem C4_token_lifecycle (st : DBState) (username password : String)
    (now : Nat) (key : String) (tok : JwtToken)
    (h : login_for_access_token st username password now key = .ok tok)
    (nowBefore nowAfter : Nat) (hb : nowBefore < tok.exp)
    (ha : tok.exp < nowAfter)
    (tbad : JwtToken) (hbadkey : tbad.key ≠ key)
    (tnosub : JwtToken) (hnosub : claimLookup tnosub.claims "sub" = none)
    (d : List (String × String)) (now2 : Nat) :
    tok.exp = now + 30
    ∧ claimLookup tok.claims "sub" = some username
    ∧ (create_access_token d none now2 key).exp = now2 + 15
    ∧ (∃ u, get_user st username = some u ∧ u.username = username
        ∧ get_current_user st tok key nowBefore = .ok u)
    ∧ get_current_user st tok key nowAfter = .error credentialsException
    ∧ get_current_user st tbad key nowBefore = .error credentialsException
    ∧ get_current_user st tnosub key nowBefore = .error credentialsException
    := by
  unfold login_for_access_token at h
  cases hau : authenticate_user st username password with
  | none => rw [hau] at h; exact absurd h (by simp)
  | some u =>
      rw [hau] at h
      simp only [Except.ok.injEq] at h
      unfold authenticate_user at hau
      cases hgu : get_user st username with
      | none => rw [hgu] at hau; exact absurd hau (by simp)
      | some u' =>
          rw [hgu] at hau
          have hu : u' = u := by
            by_cases hv : verify_password password u'.hashed_password <;>
              simp [hv] at hau <;> try exact hau
          subst hu
          have hun : u'.username = username := by
            have := List.find?_some hgu
            simpa using this
          have htok : tok =
              ⟨[("sub", u'.username)], now + 30, key⟩ := by
            rw [← h]; rfl
          subst htok
          dsimp only at hb ha
          refine ⟨rfl, by simp [claimLookup, hun], rfl, ?_, ?_, ?_, ?_⟩
          · refine ⟨u', rfl, hun, ?_⟩
            have h1 : ¬(now + 30 ≤ nowBefore) := by omega
            unfold get_current_user jwtDecode
            simp [h1, claimLookup, hun, hgu]
          · have h2 : now + 30 ≤ nowAfter := by omega
            unfold get_current_user jwtDecode
            simp [h2]
          · unfold get_current_user jwtDecode
            simp [hbadkey]
          · unfold get_current_user
            cases hdec : jwtDecode tnosub key nowBefore with
            | none => rfl
            | some payload =>
                have hpl : payload = tnosub.claims := by
                  unfold jwtDecode at hdec
                  split_ifs at hdec <;> simp_all
                subst hpl
                simp [hnosub]

/-- Witness for `C4_token_lifecycle`: Alice logs in at time 100 with key
"k"; the token expires at 130; resolution at 110 and 200, a wrong-key
token, and a token with no `sub` claim. -/
theorem C4_token_lifecycle_witness :
    (⟨[("sub", "alice")], 130, "k"⟩ : JwtToken).exp = 100 + 30
    ∧ claimLookup (⟨[("sub", "alice")], 130, "k"⟩ : JwtToken).claims "sub" =
        some "alice"
    ∧ (create_access_token [("sub", "alice")] none 7 "k").exp = 7 + 15
    ∧ (∃ u, get_user stTen "alice" = some u ∧ u.username = "alice"
        ∧ get_current_user stTen ⟨[("sub", "alice")], 130, "k"⟩ "k" 110 =
            .ok u)
    ∧ get_current_user stTen ⟨[("sub", "alice")], 130, "k"⟩ "k" 200 =
        .error credentialsException
    ∧ get_current_user stTen ⟨[("sub", "alice")], 130, "wrong"⟩ "k" 110 =
        .error credentialsException
    ∧ get_current_user stTen ⟨[("x", "y")], 130, "k"⟩ "k" 110 =
        .error credentialsException :=
  C4_token_lifecycle stTen "alice" "pw1" 100 "k"
    ⟨[("sub", "alice")], 130, "k"⟩ (by rfl) 110 200 (by decide)
    (by decide) ⟨[("sub", "alice")], 130, "wrong"⟩ (by decide)
    ⟨[("x", "y")], 130, "k"⟩ (by decide) [("sub", "alice")] 7

/-- C5: registration fails with a 400 error and changes nothing whenever
the requested username or email already belongs to an existing user;
otherwise it appends exactly one new user with role `contributor`,
`contribution_count` 0 and `contributor_rank` 0, touching no other
collection. -/
theorem C5_register (stD : DBState) (udD : UserCreate) (uidD : String)
    (nowD : Nat)
    (hdup : ∃ u ∈ stD.users, u.username = udD.username ∨ u.email = udD.email)
    (stO : DBState) (udO : UserCreate) (uidO : String) (nowO : Nat)
    (hok : ∀ u ∈ stO.users, u.username ≠ udO.username ∧ u.email ≠ udO.email) :
    ((register_user stD udD uidD nowD).1 = stD
      ∧ ∃ e, (register_user stD udD uidD nowD).2 = .error e ∧ e.code = 400)
    ∧ ((register_user stO udO uidO nowO).1.users = stO.users ++
          [⟨uidO, udO.email, udO.username, get_password_hash udO.password,
            .contributor, 0, 0, nowO, nowO⟩]
       ∧ (register_user stO udO uidO nowO).1.languages = stO.languages
       ∧ (register_user stO udO uidO nowO).1.words = stO.words
       ∧ (register_user stO udO uidO nowO).1.contributions = stO.contributions
       ∧ (register_user stO udO uidO nowO).2 =
           .ok ⟨uidO, udO.email, udO.username, .contributor, 0, 0, nowO⟩) := by
  constructor
  · unfold register_user
    cases hfu : stD.users.find? (fun u => u.username == udD.username) with
    | some u => exact ⟨rfl, ⟨400, "Username already registered"⟩, rfl, rfl⟩
    | none =>
        have hnm : ∀ u ∈ stD.users, u.username ≠ udD.username := by
          intro u hu
          have := List.find?_eq_none.mp hfu u hu
          simpa using this
        have hsome : (stD.users.find? (fun u => u.email == udD.email)).isSome
            := by
          rw [List.find?_isSome]
          obtain ⟨u, hu, hc⟩ := hdup
          rcases hc with hc | hc
          · exact absurd hc (hnm u hu)
          · exact ⟨u, hu, by simp [hc]⟩
        cases hfe : stD.users.find? (fun u => u.email == udD.email) with
        | none => rw [hfe] at hsome; simp at hsome
        | some u => exact ⟨rfl, ⟨400, "Email already registered"⟩, rfl, rfl⟩
  · unfold register_user
    have hfu : stO.users.find? (fun u => u.username == udO.username) = none
        := by
      rw [List.find?_eq_none]
      intro u hu
      simp [(hok u hu).1]
    have hfe : stO.users.find? (fun u => u.email == udO.email) = none := by
      rw [List.find?_eq_none]
      intro u hu
      simp [(hok u hu).2]
    rw [hfu, hfe]
    exact ⟨rfl, rfl, rfl, rfl, rfl⟩

/-- Witness for `C5_register`: registering a second "alice" fails with 400;
registering "bob" appends exactly one contributor with zero counters. -/
theorem C5_register_witness :
    ((register_user stTen ⟨"other@example.com", "alice", "x"⟩ "u9" 5).1 = stTen
      ∧ ∃ e, (register_user stTen ⟨"other@example.com", "alice", "x"⟩
          "u9" 5).2 = .error e ∧ e.code = 400)
    ∧ ((register_user stTen ⟨"bob@example.com", "bob", "pw9"⟩ "u9" 5).1.users
          = stTen.users ++
          [⟨"u9", "bob@example.com", "bob", get_password_hash "pw9",
            .contributor, 0, 0, 5, 5⟩]
       ∧ (register_user stTen ⟨"bob@example.com", "bob", "pw9"⟩
            "u9" 5).1.languages = stTen.languages
       ∧ (register_user stTen ⟨"bob@example.com", "bob", "pw9"⟩
            "u9" 5).1.words = stTen.words
       ∧ (register_user stTen ⟨"bob@example.com", "bob", "pw9"⟩
            "u9" 5).1.contributions = stTen.contributions
       ∧ (register_user stTen ⟨"bob@example.com", "bob", "pw9"⟩ "u9" 5).2 =
           .ok ⟨"u9", "bob@example.com", "bob", .contributor, 0, 0, 5⟩) :=
  C5_register stTen ⟨"other@example.com", "alice", "x"⟩ "u9" 5 (by decide)
    stTen ⟨"bob@example.com", "bob", "pw9"⟩ "u9" 5 (by decide)

/-- C6: `create_language` succeeds exactly for moderators and admins and
fails with 403 (and no state change) for every other role;
`get_user_contributions` for target T succeeds exactly when the caller is T
or a moderator/admin, and fails with 403 otherwise. -/
theorem C6_authorization (st : DBState) (lang : LanguageR) (cu : UserR)
    (target : String) :
    ((∃ l, (create_language st lang cu).2 = .ok l) ↔
        (cu.role = .moderator ∨ cu.role = .admin))
    ∧ ((cu.role ≠ .moderator ∧ cu.role ≠ .admin) →
        (create_language st lang cu).2 =
          .error ⟨403, "Insufficient permissions"⟩
        ∧ (create_language st lang cu).1 = st)
    ∧ ((∃ r, get_user_contributions st target cu = .ok r) ↔
        (cu.id = target ∨ cu.role = .moderator ∨ cu.role = .admin))
    ∧ ((cu.id ≠ target ∧ cu.role ≠ .moderator ∧ cu.role ≠ .admin) →
        get_user_contributions st target cu =
          .error ⟨403, "Not authorized to view these contributions"⟩) := by
  refine ⟨⟨?_, ?_⟩, ?_, ⟨?_, ?_⟩, ?_⟩
  · rintro ⟨l, hl⟩
    by_contra hrole
    unfold create_language is_moderator at hl
    rw [if_neg hrole] at hl
    simp at hl
  · intro hrole
    unfold create_language is_moderator
    rw [if_pos hrole]
    exact ⟨lang, rfl⟩
  · intro hne
    have hrole : ¬(cu.role = .moderator ∨ cu.role = .admin) := by
      rintro (h | h)
      · exact hne.1 h
      · exact hne.2 h
    unfold create_language is_moderator
    rw [if_neg hrole]
    exact ⟨rfl, rfl⟩
  · rintro ⟨r, hr⟩
    by_contra hcond
    push_neg at hcond
    unfold get_user_contributions at hr
    rw [if_pos ⟨hcond.1, hcond.2.1, hcond.2.2⟩] at hr
    simp at hr
  · intro hcond
    unfold get_user_contributions
    rw [if_neg (by tauto)]
    exact ⟨_, rfl⟩
  · intro hc
    unfold get_user_contributions
    rw [if_pos ⟨hc.1, hc.2.1, hc.2.2⟩]

/-- Witness for `C6_authorization`: a `user`-role caller is rejected with
403 both when creating a language and when reading another user's
contributions. -/
theorem C6_authorization_witness :
    (create_language stTen langEn uPlain).2 =
        .error ⟨403, "Insufficient permissions"⟩
    ∧ (create_language stTen langEn uPlain).1 = stTen
    ∧ get_user_contributions stTen "u1" uPlain =
        .error ⟨403, "Not authorized to view these contributions"⟩ := by
  have h := C6_authorization stTen langEn uPlain "u1"
  exact ⟨(h.2.1 (by decide)).1, (h.2.1 (by decide)).2, h.2.2.2 (by decide)⟩

/-! ## Lemmas about `update_word`'s `$set` -/

theorem applyField_frame (acc : WordDoc) (kv : String × PValue) :
    (applyField acc kv).id = acc.id ∧
    (applyField acc kv).language_id = acc.language_id ∧
    (applyField acc kv).created_by = acc.created_by ∧
    (applyField acc kv).created_at = acc.created_at ∧
    (applyField acc kv).last_modified_by = acc.last_modified_by ∧
    (applyField acc kv).updated_at = acc.updated_at := by
  unfold applyField
  split_ifs <;> exact ⟨rfl, rfl, rfl, rfl, rfl, rfl⟩

theorem foldl_applyField (payload : List (String × PValue)) (d0 : WordDoc) :
    (payload.foldl applyField d0).id = d0.id
    ∧ (payload.foldl applyField d0).language_id = d0.language_id
    ∧ (payload.foldl applyField d0).created_by = d0.created_by
    ∧ (payload.foldl applyField d0).created_at = d0.created_at
    ∧ (payload.foldl applyField d0).last_modified_by = d0.last_modified_by
    ∧ (payload.foldl applyField d0).updated_at = d0.updated_at
    ∧ (payload.foldl applyField d0).word =
        (payloadValue payload "word").getD d0.word
    ∧ (payload.foldl applyField d0).meanings =
        (payloadValue payload "meanings").getD d0.meanings := by
  induction payload generalizing d0 with
  | nil => exact ⟨rfl, rfl, rfl, rfl, rfl, rfl, rfl, rfl⟩
  | cons kv rest ih =>
      obtain ⟨h1, h2, h3, h4, h5, h6, h7, h8⟩ := ih (applyField d0 kv)
      obtain ⟨g1, g2, g3, g4, g5, g6⟩ := applyField_frame d0 kv
      simp only [List.foldl_cons]
      refine ⟨h1.trans g1, h2.trans g2, h3.trans g3, h4.trans g4,
        h5.trans g5, h6.trans g6, ?_, ?_⟩
      · rw [h7]
        simp only [payloadValue]
        cases hpv : payloadValue rest "word" with
        | some v => simp
        | none =>
            simp only [Option.getD_none]
            unfold applyField
            by_cases hw : kv.1 = "word"
            · simp [hw]
            · by_cases hm : kv.1 = "meanings" <;> simp [hw, hm]
      · rw [h8]
        simp only [payloadValue]
        cases hpv : payloadValue rest "meanings" with
        | some v => simp
        | none =>
            simp only [Option.getD_none]
            unfold applyField
            by_cases hw : kv.1 = "word"
            · simp [hw]
            · by_cases hm : kv.1 = "meanings" <;> simp [hw, hm]

theorem find?_updateFirstWord (words : List WordDoc) (wid : String)
    (f : WordDoc → WordDoc) (hf : ∀ w, (f w).id = w.id) :
    (updateFirstWord words wid f).find? (fun w => w.id == wid) =
      (words.find? (fun w => w.id == wid)).map f := by
  induction words with
  | nil => rfl
  | cons w rest ih =>
      by_cases h : w.id = wid
      · simp [updateFirstWord, h, hf]
      · simp [updateFirstWord, h, ih]

theorem applyUpdateData_id (payload : List (String × PValue)) (cuid : String)
    (now : Nat) (w : WordDoc) :
    (applyUpdateData payload cuid now w).id = w.id :=
  (foldl_applyField payload _).1

theorem findWordById_after_update (st : DBState) (word_id : String)
    (payload : List (String × PValue)) (cuid : String) (now : Nat)
    (d : WordDoc) (hfind : findWordById st word_id = some d)
    (st2 : DBState)
    (h2 : st2.words = updateFirstWord st.words word_id
      (applyUpdateData payload cuid now)) :
    findWordById st2 word_id = some (applyUpdateData payload cuid now d) := by
  unfold findWordById
  rw [h2, find?_updateFirstWord _ _ _ (applyUpdateData_id payload cuid now)]
  unfold findWordById at hfind
  rw [hfind]
  rfl

theorem update_word_found (st : DBState) (cu : UserR) (word_id : String)
    (payload : List (String × PValue)) (cid : String) (now : Nat)
    (d : WordDoc) (hfind : findWordById st word_id = some d) :
    update_word st cu word_id payload cid now =
      ({ users := advanceCounters st.users cu,
         languages := st.languages,
         words := updateFirstWord st.words word_id
           (applyUpdateData payload cu.id now),
         contributions := st.contributions ++
           [⟨cid, cu.id, word_id, "edit", payload, now⟩] },
       .ok (applyUpdateData payload cu.id now d)) := by
  unfold update_word
  rw [hfind]
  dsimp only
  rw [findWordById_after_update st word_id payload cu.id now d hfind _ rfl]

/-- C3: for an existing word and any update payload, `update_word` persists
only the `word` and `meanings` keys of the payload (the stored word's `id`,
`language_id`, `created_by` and `created_at` are unchanged whatever other
keys the payload carries), always sets `last_modified_by` to the acting
user and `updated_at` to the request time, and records a contribution of
type `edit` whose `change_details` is the entire submitted payload
verbatim, unrecognized keys included. -/
theorem C3_update_persistence (st : DBState) (cu : UserR) (word_id : String)
    (payload : List (String × PValue)) (cid : String) (now : Nat)
    (d : WordDoc) (hfind : findWordById st word_id = some d) :
    ∃ d', (update_word st cu word_id payload cid now).2 = .ok d'
      ∧ findWordById (update_word st cu word_id payload cid now).1 word_id =
          some d'
      ∧ d'.id = d.id ∧ d'.language_id = d.language_id
      ∧ d'.created_by = d.created_by ∧ d'.created_at = d.created_at
      ∧ d'.last_modified_by = cu.id ∧ d'.updated_at = now
      ∧ d'.word = (payloadValue payload "word").getD d.word
      ∧ d'.meanings = (payloadValue payload "meanings").getD d.meanings
      ∧ (update_word st cu word_id payload cid now).1.contributions =
          st.contributions ++ [⟨cid, cu.id, word_id, "edit", payload, now⟩]
    := by
  have heq := update_word_found st cu word_id payload cid now d hfind
  obtain ⟨h1, h2, h3, h4, h5, h6, h7, h8⟩ :=
    foldl_applyField payload
      { d with last_modified_by := cu.id, updated_at := now }
  refine ⟨applyUpdateData payload cu.id now d, ?_, ?_, h1, h2, h3, h4, h5,
    h6, h7, h8, ?_⟩
  · rw [heq]
  · exact findWordById_after_update st word_id payload cu.id now d hfind _
      (by rw [heq])
  · rw [heq]

/-- Witness for `C3_update_persistence`: updating the stored word `wid1`
with a payload carrying a new `word` value and an unrecognized `bogus`
key. -/
theorem C3_update_persistence_witness :
    ∃ d', (update_word stUpd uAlice "wid1" payloadX "c10" 42).2 = .ok d'
      ∧ findWordById (update_word stUpd uAlice "wid1" payloadX "c10" 42).1
          "wid1" = some d'
      ∧ d'.id = dBase.id ∧ d'.language_id = dBase.language_id
      ∧ d'.created_by = dBase.created_by ∧ d'.created_at = dBase.created_at
      ∧ d'.last_modified_by = uAlice.id ∧ d'.updated_at = 42
      ∧ d'.word = (payloadValue payloadX "word").getD dBase.word
      ∧ d'.meanings = (payloadValue payloadX "meanings").getD dBase.meanings
      ∧ (update_word stUpd uAlice "wid1" payloadX "c10" 42).1.contributions =
          stUpd.contributions ++
            [⟨"c10", uAlice.id, "wid1", "edit", payloadX, 42⟩] :=
  C3_update_persistence stUpd uAlice "wid1" payloadX "c10" 42 dBase
    (by decide)

/-! ## Regex lemmas: metacharacter-free patterns behave literally -/

theorem parseGo_safe (cs : List Char)
    (h : ∀ c ∈ cs, isMetaChar c = false) (anch : Bool) (cur : List RPiece)
    (alts : List RAlt) :
    parseGo cs anch cur alts =
      some ((⟨anch, cur.reverse ++ litSeq cs⟩ :: alts).reverse) := by
  induction cs generalizing cur with
  | nil => simp [parseGo, litSeq]
  | cons c rest ih =>
      have hc := h c (List.mem_cons_self c rest)
      have hrest : ∀ x ∈ rest, isMetaChar x = false := fun x hx =>
        h x (List.mem_cons_of_mem c hx)
      have hpipe : ¬(c = '|') := fun he => by simp [he, isMetaChar] at hc
      have hhat : ¬(c = '^') := fun he => by simp [he, isMetaChar] at hc
      have hstar : ¬(c = '*') := fun he => by simp [he, isMetaChar] at hc
      have hdot : ¬(c = '.') := fun he => by simp [he, isMetaChar] at hc
      unfold parseGo
      rw [if_neg hpipe, if_neg hhat, if_neg hstar, if_neg hdot, if_neg
        (by simp [hc])]
      rw [ih hrest]
      simp [litSeq]

theorem parsePattern_safe (q : String) (h : regexSafe q = true) :
    parsePattern q = some [⟨false, litSeq q.data⟩] := by
  unfold parsePattern
  rw [parseGo_safe q.data (by simpa [regexSafe, List.all_eq_true] using h)
    false [] []]
  simp

theorem parsePattern_anchor_safe (q : String) (h : regexSafe q = true) :
    parsePattern ("^" ++ q) = some [⟨true, litSeq q.data⟩] := by
  unfold parsePattern
  have hdata : ("^" ++ q).data = '^' :: q.data := by
    rw [String.data_append]
    rfl
  rw [hdata]
  unfold parseGo
  rw [if_neg (by decide), if_pos (by decide)]
  rw [parseGo_safe q.data (by simpa [regexSafe, List.all_eq_true] using h)
    true [] []]
  simp

theorem matchSeq_litSeq (cs s : List Char) :
    matchSeq (litSeq cs) s =
      (cs.map Char.toLower).isPrefixOf (s.map Char.toLower) := by
  induction cs generalizing s with
  | nil => simp [litSeq, matchSeq, List.isPrefixOf]
  | cons c rest ih =>
      cases s with
      | nil => simp [litSeq, matchSeq, List.isPrefixOf]
      | cons d t =>
          have hl : litSeq (c :: rest) =
              ⟨.rchar c.toLower, false⟩ :: litSeq rest := rfl
          rw [hl]
          simp [matchSeq, atomMatches, List.isPrefixOf, ih]

theorem suffixes_map (f : Char → Char) (s : List Char) :
    suffixes (s.map f) = (suffixes s).map (fun t => t.map f) := by
  induction s with
  | nil => simp [suffixes]
  | cons c rest ih => simp [suffixes, ih]

theorem regexFind_lit_unanchored (q s : String) :
    regexFind [⟨false, litSeq q.data⟩] s = substrCI q s := by
  unfold regexFind substrCI altMatches lowerStr
  simp only [List.any_cons, List.any_nil, Bool.or_false, if_neg
    (Bool.false_ne_true ∘ id)]
  rw [suffixes_map]
  simp [List.any_map, matchSeq_litSeq, Function.comp_def]

theorem regexFind_lit_anchored (q s : String) :
    regexFind [⟨true, litSeq q.data⟩] s = prefixCI q s := by
  unfold regexFind prefixCI altMatches lowerStr
  simp [matchSeq_litSeq]

theorem mapM_parseWord_map_toDoc (ws : List WordR) :
    (ws.map WordR.toDoc).mapM parseWord = some ws := by
  induction ws with
  | nil => rfl
  | cons w rest ih =>
      have hp : parseWord w.toDoc = some w := by cases w; rfl
      rw [List.map_cons, List.mapM_cons, hp, ih]
      rfl

/-- C7 (amended): for metacharacter-free non-empty search strings,
`list_words` returns exactly the stored words whose text contains the
search string case-insensitively anywhere, and the search endpoint returns
exactly the words whose text starts with it case-insensitively (each up to
its fixed `to_list` truncation). -/
theorem C7_substring_vs_prefix (us : List UserR) (ls : List LanguageR)
    (crs : List ContributionR) (ws : List WordR) (q p : String)
    (hq : q ≠ "") (hsq : regexSafe q = true) (hsp : regexSafe p = true) :
    get_words ⟨us, ls, ws.map WordR.toDoc, crs⟩ none (some q) =
      some ((ws.filter (fun w => substrCI q w.word)).take 1000)
    ∧ search_words ⟨us, ls, ws.map WordR.toDoc, crs⟩ p none none =
      some ((ws.filter (fun w => prefixCI p w.word)).take 100) := by
  constructor
  · unfold get_words
    dsimp only
    rw [if_neg hq, parsePattern_safe q hsq]
    dsimp only
    rw [List.filter_map, ← List.map_take, mapM_parseWord_map_toDoc]
    congr 2
    apply List.filter_congr
    intro w _
    simp [WordR.toDoc, docFieldRegexMatches, Function.comp,
      regexFind_lit_unanchored]
  · unfold search_words searchFetch
    rw [parsePattern_anchor_safe p hsp]
    dsimp only
    rw [List.filter_map, ← List.map_take, mapM_parseWord_map_toDoc]
    dsimp only
    congr 2
    apply List.filter_congr
    intro w _
    simp [WordR.toDoc, docFieldRegexMatches, Function.comp,
      regexFind_lit_anchored]

/-- Counterexample to C7 as stated for every search string: with the single
stored word "dog" and the query ".*", `list_words` returns "dog" even
though "dog" does not contain the string ".*", and the search endpoint
returns "dog" even though "dog" does not start with ".*": the literal
substring/prefix reading fails on regex metacharacters. -/
theorem C7_substring_vs_prefix_counterexample :
    get_words stDog none (some ".*") = some [wDog]
    ∧ substrCI ".*" "dog" = false
    ∧ search_words stDog ".*" none none = some [wDog]
    ∧ prefixCI ".*" "dog" = false := by decide

/-- Witness for `C7_substring_vs_prefix`: the spec's own example set
("dog", "cat", "Cats", "concatenate") with the query "cat". -/
theorem C7_substring_vs_prefix_witness :
    get_words ⟨[], [], [wDog, wCat, wCats, wConcat].map WordR.toDoc, []⟩ none
        (some "cat") =
      some (([wDog, wCat, wCats, wConcat].filter
        (fun w => substrCI "cat" w.word)).take 1000)
    ∧ search_words ⟨[], [], [wDog, wCat, wCats, wConcat].map WordR.toDoc, []⟩
        "cat" none none =
      some (([wDog, wCat, wCats, wConcat].filter
        (fun w => prefixCI "cat" w.word)).take 100) :=
  C7_substring_vs_prefix [] [] [] [wDog, wCat, wCats, wConcat] "cat" "cat"
    (by decide) (by decide) (by decide)

/-- C9: the query strings are interpolated unescaped into `$regex`, so an
input containing metacharacters escapes the literal semantics: the query
"a|b" (not regex-safe) makes the search endpoint return "cab", which does
not begin with — or even contain — the literal string "a|b"; likewise for
`list_words`. -/
theorem C9_regex_metachar_injection :
    regexSafe "a|b" = false
    ∧ search_words stCab "a|b" none none = some [wCab]
    ∧ prefixCI "a|b" "cab" = false
    ∧ get_words stCab none (some "a|b") = some [wCab]
    ∧ substrCI "a|b" "cab" = false := by decide

theorem mem_filterToLanguage (L : String) (ws : List WordR) (x : WordR) :
    x ∈ filterToLanguage L ws ↔
      ∃ w0 ∈ ws,
        (w0.meanings.filter (fun m => mget m "language_id" == some L)) ≠ []
        ∧ x = { w0 with meanings :=
            w0.meanings.filter (fun m => mget m "language_id" == some L) }
    := by
  unfold filterToLanguage
  rw [List.mem_filterMap]
  constructor
  · rintro ⟨w0, hw0, hf⟩
    dsimp only at hf
    by_cases hfm : (w0.meanings.filter
        (fun m => mget m "language_id" == some L)).isEmpty
    · rw [if_pos hfm] at hf
      exact absurd hf (by simp)
    · rw [if_neg hfm] at hf
      refine ⟨w0, hw0, by simpa using hfm, (Option.some.inj hf).symm⟩
  · rintro ⟨w0, hw0, hne, rfl⟩
    refine ⟨w0, hw0, ?_⟩
    dsimp only
    rw [if_neg (by simpa using hne)]

/-- C8: when the search endpoint is called with a (truthy) `to_language` L,
every returned word's meanings list is non-empty and consists exactly of
the fetched word's meanings targeting L, and every fetched word with zero
meanings targeting L is excluded from the result entirely. -/
theorem C8_to_language_filter (st : DBState) (w L : String)
    (fl : Option String) (hL : L ≠ "") (base r : List WordR)
    (hbase : searchFetch st w fl = some base)
    (h : search_words st w fl (some L) = some r) :
    (∀ x ∈ r, x.meanings ≠ [] ∧ ∀ m ∈ x.meanings,
        mget m "language_id" = some L)
    ∧ (∀ x ∈ r, ∃ w0 ∈ base,
        x = { w0 with meanings :=
          w0.meanings.filter (fun m => mget m "language_id" == some L) })
    ∧ (∀ w0 ∈ base,
        w0.meanings.filter (fun m => mget m "language_id" == some L) = [] →
        w0 ∉ r) := by
  have hr : r = filterToLanguage L base := by
    unfold search_words at h
    rw [hbase] at h
    dsimp only at h
    rw [if_neg hL] at h
    by_cases hb : base.isEmpty
    · have hb' : base = [] := by simpa using hb
      rw [if_pos hb] at h
      subst hb'
      simpa [filterToLanguage] using (Option.some.inj h).symm
    · rw [if_neg hb] at h
      exact (Option.some.inj h).symm
  subst hr
  refine ⟨?_, ?_, ?_⟩
  · intro x hx
    obtain ⟨w0, hw0, hne, rfl⟩ := (mem_filterToLanguage L base x).mp hx
    constructor
    · simpa using hne
    · intro m hm
      have hm' : m ∈ w0.meanings.filter
          (fun m => mget m "language_id" == some L) := by simpa using hm
      have := (List.mem_filter.mp hm').2
      simpa using this
  · intro x hx
    obtain ⟨w0, hw0, hne, rfl⟩ := (mem_filterToLanguage L base x).mp hx
    exact ⟨w0, hw0, rfl⟩
  · intro w0 hw0 hempty hmem
    obtain ⟨w1, hw1, hne, heq⟩ := (mem_filterToLanguage L base w0).mp hmem
    apply hne
    have hm0 : w0.meanings = w1.meanings.filter
        (fun m => mget m "language_id" == some L) := by rw [heq]
    rw [hm0] at hempty
    have hall : ∀ m ∈ w1.meanings.filter
        (fun m => mget m "language_id" == some L),
        (fun m => mget m "language_id" == some L) m := fun m hm =>
      (List.mem_filter.mp hm).2
    rw [List.filter_eq_self.mpr hall] at hempty
    exact hempty

/-- Witness for `C8_to_language_filter`: searching "h" with
`to_language = "es"` over "house" (es+fr meanings) and "hour" (fr only)
keeps only "house", reduced to its Spanish meaning. -/
theorem C8_to_language_filter_witness :
    (∀ x ∈ [{ wHouse with meanings :=
          [[("language_id", "es"), ("meaning", "casa")]] }],
        x.meanings ≠ [] ∧ ∀ m ∈ x.meanings, mget m "language_id" = some "es")
    ∧ (∀ x ∈ [{ wHouse with meanings :=
          [[("language_id", "es"), ("meaning", "casa")]] }],
        ∃ w0 ∈ [wHouse, wHour],
          x = { w0 with meanings :=
            w0.meanings.filter (fun m => mget m "language_id" == some "es") })
    ∧ (∀ w0 ∈ [wHouse, wHour],
        w0.meanings.filter (fun m => mget m "language_id" == some "es") = [] →
        w0 ∉ [{ wHouse with meanings :=
          [[("language_id", "es"), ("meaning", "casa")]] }]) :=
  C8_to_language_filter stMeanings "h" "es" none (by decide) [wHouse, wHour]
    [{ wHouse with meanings := [[("language_id", "es"), ("meaning", "casa")]] }]
    (by decide) (by decide)

theorem mapM_parseWord_length (xs : List WordDoc) (ys : List WordR)
    (h : xs.mapM parseWord = some ys) : ys.length = xs.length := by
  induction xs generalizing ys with
  | nil =>
      rw [List.mapM_nil] at h
      simp only [pure, Option.some.injEq] at h
      rw [← h]
      rfl
  | cons x rest ih =>
      rw [List.mapM_cons] at h
      cases hx : parseWord x with
      | none => rw [hx] at h; simp at h
      | some y =>
          rw [hx] at h
          cases hr : rest.mapM parseWord with
          | none => rw [hr] at h; simp at h
          | some ys2 =>
              rw [hr] at h
              simp at h
              subst h
              simp [ih ys2 hr]

/-- C10: every list endpoint silently truncates: `list_languages` returns
exactly the first 1000 stored languages, `list_words` and
`get_user_contributions` return at most 1000 entries, the search endpoint
returns at most 100, and there is a state with more than 1000 languages
where `list_languages` returns exactly 1000, with no error. -/
theorem C10_truncation (st : DBState) (lid q : Option String)
    (rws : List WordR) (hw : get_words st lid q = some rws)
    (w : String) (fl tl : Option String) (rss : List WordR)
    (hs : search_words st w fl tl = some rss)
    (uid : String) (cu : UserR) (rcs : List ContributionR)
    (hc : get_user_contributions st uid cu = .ok rcs) :
    get_languages st = st.languages.take 1000
    ∧ rws.length ≤ 1000
    ∧ rss.length ≤ 100
    ∧ rcs.length ≤ 1000
    ∧ (∃ st2 : DBState, 1000 < st2.languages.length
        ∧ (get_languages st2).length = 1000) := by
  refine ⟨rfl, ?_, ?_, ?_, ?_⟩
  · unfold get_words at hw
    cases q with
    | none =>
        dsimp only at hw
        rw [mapM_parseWord_length _ _ hw]
        exact List.length_take_le _ _
    | some s =>
        dsimp only at hw
        by_cases hqe : s = ""
        · rw [if_pos hqe] at hw
          rw [mapM_parseWord_length _ _ hw]
          exact List.length_take_le _ _
        · rw [if_neg hqe] at hw
          cases hp : parsePattern s with
          | none => rw [hp] at hw; simp at hw
          | some r =>
              rw [hp] at hw
              dsimp only at hw
              rw [mapM_parseWord_length _ _ hw]
              exact List.length_take_le _ _
  · unfold search_words at hs
    cases hf : searchFetch st w fl with
    | none => rw [hf] at hs; simp at hs
    | some base =>
        have hbl : base.length ≤ 100 := by
          unfold searchFetch at hf
          cases hp : parsePattern ("^" ++ w) with
          | none => rw [hp] at hf; simp at hf
          | some r =>
              rw [hp] at hf
              dsimp only at hf
              rw [mapM_parseWord_length _ _ hf]
              exact List.length_take_le _ _
        rw [hf] at hs
        dsimp only at hs
        cases tl with
        | none =>
            rw [← Option.some.inj hs]
            exact hbl
        | some L =>
            dsimp only at hs
            by_cases hLe : L = ""
            · rw [if_pos hLe] at hs
              rw [← Option.some.inj hs]
              exact hbl
            · rw [if_neg hLe] at hs
              by_cases hbe : base.isEmpty
              · rw [if_pos hbe] at hs
                rw [← Option.some.inj hs]
                exact hbl
              · rw [if_neg hbe] at hs
                rw [← Option.some.inj hs]
                exact le_trans (List.length_filterMap_le _ _) hbl
  · unfold get_user_contributions at hc
    split_ifs at hc with hcond
    rw [← Except.ok.inj hc]
    exact List.length_take_le _ _
  · refine ⟨⟨[], List.replicate 1001 langEn, [], []⟩, ?_, ?_⟩
    · show 1000 < (List.replicate 1001 langEn).length
      rw [List.length_replicate]
      omega
    · show (List.take 1000 (List.replicate 1001 langEn)).length = 1000
      rw [List.take_replicate, List.length_replicate]
      omega

/-- Witness for `C10_truncation` at the one-word state. -/
theorem C10_truncation_witness :
    get_languages stCab = stCab.languages.take 1000
    ∧ ([wCab] : List WordR).length ≤ 1000
    ∧ ([wCab] : List WordR).length ≤ 100
    ∧ ([] : List ContributionR).length ≤ 1000
    ∧ (∃ st2 : DBState, 1000 < st2.languages.length
        ∧ (get_languages st2).length = 1000) :=
  C10_truncation stCab none none [wCab] (by decide) "cab" none none [wCab]
    (by decide) "u1" uAlice [] (by rfl)
